import Mathlib

/-!
Verification development for the `dynamodb-lease` crate.

The crate's in-repo source is `src/lease.rs`: the `Lease` handle, its explicit
`release`, its `Drop` implementation, and the background extension task
(`start_periodicly_extending`).  The `Client` (acquire paths, local key
registry, the DynamoDB store adapter) is declared by the spec and exercised by
the tests but its source is not in the repository snapshot; those parts are
modelled from the spec and marked as such.

Modelling conventions:
* `Uuid` is an opaque 128-bit token; we represent it by `Nat`.
* Async effects are made explicit as action traces (`StoreAction`): each
  observable call (`try_clean_local_lock`, `delete_lease`, dropping the local
  guard, spawning a detached release task) becomes one trace element.
* `tokio::spawn` in `Drop` is modelled by inlining the spawned task's trace
  after a `spawn_release` marker; a fuel argument bounds the drop/release
  chain, and the theorems show the chain is in fact fuel-independent.
-/

/-- Stands for `uuid::Uuid`, an opaque 128-bit token, represented by `Nat`. -/
abbrev Uuid := Nat

/-- The result the store returns for `delete_lease`; `release` ignores it
(`let _ = client.delete_lease(..)` in `src/lease.rs`). -/
inductive StoreResult where
  | ok : StoreResult
  | err : StoreResult
deriving DecidableEq, Repr

/-- The `Lease` struct of `src/lease.rs`:
`client` (the cloned `Client` reference, identified by a number here, since
only its identity matters to the handle), `key_lease_v` (the
`Arc<(String, Mutex<Uuid>)>`: the key and the current contents of the shared
version cell), `local_guard` (the `Option<OwnedMutexGuard<()>>`) and the
`is_dropped` flag. -/
structure Lease where
  client : Nat
  key_lease_v : String × Uuid
  local_guard : Option Unit
  is_dropped : Bool
deriving DecidableEq, Repr

/-- Observable actions performed by release / drop code paths. -/
inductive StoreAction where
  /-- Models `drop(self.local_guard.take())` — the local serialisation token is
  relinquished (recorded even when the guard was already `None`). -/
  | drop_local_guard : StoreAction
  /-- Models `client.try_clean_local_lock(key)`. -/
  | try_clean_local_lock (key : String) : StoreAction
  /-- Models `client.delete_lease(key, lease_v)` — the store-side conditional delete. -/
  | delete_lease (key : String) (v : Uuid) : StoreAction
  /-- Models the `tokio::spawn` of the detached release task in `Drop::drop`. -/
  | spawn_release : StoreAction
deriving DecidableEq, Repr

/-- The body of `Lease::release` (src/lease.rs lines 39-53), minus the implicit
drop of `self` at the end of the function.  It drops the local guard, calls
`try_clean_local_lock`, reads the current contents of the version cell and
issues `delete_lease key v`; the result of the delete (`res`) is discarded.
Returns the action trace together with `self` as it stands when the body ends
(guard taken, flag untouched). -/
def release_body (l : Lease) (res : StoreResult) : List StoreAction × Lease :=
  let _ := res
  ([StoreAction.drop_local_guard,
    StoreAction.try_clean_local_lock l.key_lease_v.1,
    StoreAction.delete_lease l.key_lease_v.1 l.key_lease_v.2],
   { l with local_guard := none })

/-- The lease value constructed inside `Drop::drop` (src/lease.rs lines
93-98) and moved into the spawned task: same client, same shared
`key_lease_v`, the taken `local_guard`, and `is_dropped := true`. -/
def drop_inner (l : Lease) : Lease :=
  { client := l.client
    key_lease_v := l.key_lease_v
    local_guard := l.local_guard
    is_dropped := true }

/-- The synchronous decision of `Drop::drop` (src/lease.rs lines 87-102):
if `is_dropped` is set, return without doing anything (`none`); otherwise
build the inner lease and hand it to a spawned task (`some inner`). -/
def drop_spawn (l : Lease) : Option Lease :=
  if l.is_dropped then none else some (drop_inner l)

/-- Trace of dropping lease `l`, with the spawned task's actions inlined after
the `spawn_release` marker.  The spawned task runs `inner.release().await`,
whose own trailing drop of `inner` recurses; `fuel` bounds that chain (the
theorems below show any `fuel ≥ 2` gives the same trace). -/
def drop_chain : Nat → Lease → StoreResult → List StoreAction
  | 0, _, _ => []
  | fuel + 1, l, res =>
    match drop_spawn l with
    | none => []
    | some inner =>
      StoreAction.spawn_release ::
        ((release_body inner res).1 ++ drop_chain fuel (release_body inner res).2 res)

/-- Full trace of calling `lease.release().await` on `l`: the release body
followed by the implicit drop of `self` at the end of the consuming call. -/
def release_trace (fuel : Nat) (l : Lease) (res : StoreResult) : List StoreAction :=
  (release_body l res).1 ++ drop_chain fuel (release_body l res).2 res

/-- Full trace of `drop(lease)`. -/
def drop_trace (fuel : Nat) (l : Lease) (res : StoreResult) : List StoreAction :=
  drop_chain fuel l res

/-- Count of `delete_lease` actions in a trace. -/
def delete_count (tr : List StoreAction) : Nat :=
  (tr.filter fun a => match a with | StoreAction.delete_lease _ _ => true | _ => false).length

/-- Count of `spawn_release` actions in a trace. -/
def spawn_count (tr : List StoreAction) : Nat :=
  (tr.filter fun a => match a with | StoreAction.spawn_release => true | _ => false).length

/-- Holds (`guard_seen_before_delete g tr = true`) iff every `delete_lease` in `tr` is
preceded by at least one earlier `drop_local_guard` (counting the `g` guard
drops assumed to have happened before `tr` starts). -/
def guard_seen_before_delete : Nat → List StoreAction → Bool
  | _, [] => true
  | g, a :: rest =>
    match a with
    | StoreAction.delete_lease _ _ => decide (0 < g) && guard_seen_before_delete g rest
    | StoreAction.drop_local_guard => guard_seen_before_delete (g + 1) rest
    | _ => guard_seen_before_delete g rest

/-- A concrete lease handle used for witnesses and counterexamples. -/
def sampleLease : Lease :=
  { client := 0
    key_lease_v := ("k", 7)
    local_guard := some ()
    is_dropped := false }

/-!
## The background extension task (`start_periodicly_extending`)

One loop iteration of src/lease.rs lines 65-82: sleep `extend_period`, try to
upgrade the weak reference to `key_lease_v`; on failure break; otherwise call
`client.extend_lease(key, *lease_v)`; on `Ok(new_lease_v)` store it into the
cell and continue; on `Err(_)` (the client's `Lost` / transient failure) break.

The environment (scheduler + store) is modelled by a list of `ExtendEvent`s,
one per loop iteration: whether the weak upgrade succeeded, and how the store
answered the extend call.  Fresh version tokens come from a supply counter
(modelled from the spec: `Uuid::new_v4()` in the Client — not under `src/` —
generates a token unique per successful acquire or extend operation).
-/

/-- How the store answers `extend_lease`: `extended` = `Ok(new_lease_v)`
(the new version being drawn from the fresh-token supply), `lost_or_transient`
= `Err(_)` — the code breaks on any error, whether `Lost` or transient. -/
inductive ExtendOutcome where
  | extended : ExtendOutcome
  | lost_or_transient : ExtendOutcome
deriving DecidableEq, Repr

/-- Environment behaviour for one iteration of the extension loop. -/
structure ExtendEvent where
  /-- did `key_lease_v.upgrade()` return `Some` (the handle still alive)? -/
  upgraded : Bool
  /-- the store's answer to `extend_lease` (ignored when `upgraded = false`,
  since the loop breaks before calling the store). -/
  outcome : ExtendOutcome
deriving DecidableEq, Repr

/-- Observable actions of the extension task. -/
inductive ExtAction where
  /-- Models `tokio::time::sleep(client.extend_period)`. -/
  | sleep : ExtAction
  /-- Models `client.extend_lease(key, lease_v)` with the current cell contents. -/
  | extend_call (key : String) (v : Uuid) : ExtAction
deriving DecidableEq, Repr

/-- Result of running the extension loop against a finite event script. -/
structure LoopRun where
  /-- actions performed, in order -/
  trace : List ExtAction
  /-- successive contents of the shared version cell, starting with its value
  when the task was spawned; a new entry is appended exactly when a successful
  extend writes a new version into the cell -/
  versions : List Uuid
  /-- final contents of the shared version cell -/
  cell : Uuid
  /-- the supply counter after the run -/
  supply : Nat
  /-- Set to `true` iff the loop hit `break` during the script -/
  terminated : Bool
deriving DecidableEq, Repr

/-- The loop of `start_periodicly_extending` (src/lease.rs lines 65-82), run
against the event script.  `v` is the current cell contents, `supply` the
fresh-token counter (modelled from the spec's "`version` is unique per
successful acquire or extend operation"). -/
def extension_loop (key : String) : Uuid → Nat → List ExtendEvent → LoopRun
  | v, supply, [] => ⟨[], [v], v, supply, false⟩
  | v, supply, e :: rest =>
    if e.upgraded then
      match e.outcome with
      | ExtendOutcome.extended =>
        let r := extension_loop key supply (supply + 1) rest
        ⟨ExtAction.sleep :: ExtAction.extend_call key v :: r.trace,
         v :: r.versions, r.cell, r.supply, r.terminated⟩
      | ExtendOutcome.lost_or_transient =>
        ⟨[ExtAction.sleep, ExtAction.extend_call key v], [v], v, supply, true⟩
    else
      ⟨[ExtAction.sleep], [v], v, supply, true⟩

/-- Count of `extend_call` actions in an extension-task trace. -/
def extend_call_count (tr : List ExtAction) : Nat :=
  (tr.filter fun a => match a with | ExtAction.extend_call _ _ => true | _ => false).length

/-!
## Store adapter and Client acquire surface

The Store Adapter and the Client are not under `src/` (only `src/lease.rs`
is); the definitions below are modelled from the spec's section 4.A-4.C and
6 ("Conditional-write expressions").
-/

/-- The persisted `LeaseRecord`: `lease_expiry` (seconds since epoch) and
`lease_version`. -/
structure LeaseRecord where
  lease_expiry : Int
  lease_version : Uuid
deriving DecidableEq, Repr

/-- The backing store: a map from key to the (at most one) record for it. -/
def StoreMap := String → Option LeaseRecord

/-- Write (or overwrite) the record for `k`. -/
def store_put (st : StoreMap) (k : String) (r : LeaseRecord) : StoreMap :=
  fun k' => if k' = k then some r else st k'

/-- Remove the record for `k`. -/
def store_del (st : StoreMap) (k : String) : StoreMap :=
  fun k' => if k' = k then none else st k'

/-- Outcome of the conditional put that acquires a lease. -/
inductive AcqOutcome where
  /-- the condition passed and the record was written; carries the new store -/
  | acquired (st : StoreMap) : AcqOutcome
  /-- another participant holds an unexpired lease; store unchanged -/
  | held : AcqOutcome

/-- Modelled from the spec: `acquire_or_replace(key, new_version, now, ttl)`
(section 4.A) — writes `{key, version := new_version, expiry := now + ttl}`
on condition "the item is absent or its current `expiry ≤ now`". -/
def acquire_or_replace (st : StoreMap) (key : String) (new_version : Uuid)
    (now ttl : Int) : AcqOutcome :=
  match st key with
  | none => AcqOutcome.acquired (store_put st key ⟨now + ttl, new_version⟩)
  | some r =>
    if r.lease_expiry ≤ now then
      AcqOutcome.acquired (store_put st key ⟨now + ttl, new_version⟩)
    else
      AcqOutcome.held

/-- Modelled from the spec: `extend_if_mine(key, expected, new_version, now,
ttl)` (section 4.A) — rewrites the record on condition
`version == expected`; `none` means `Lost`. -/
def extend_if_mine (st : StoreMap) (key : String) (expected new_version : Uuid)
    (now ttl : Int) : Option StoreMap :=
  match st key with
  | some r =>
    if r.lease_version = expected then
      some (store_put st key ⟨now + ttl, new_version⟩)
    else
      none
  | none => none

/-- Modelled from the spec: `delete_if_mine(key, expected)` (section 4.A) —
deletes the record on condition `version == expected`; a failed condition
leaves the store unchanged. -/
def delete_if_mine (st : StoreMap) (key : String) (expected : Uuid) : StoreMap :=
  match st key with
  | some r => if r.lease_version = expected then store_del st key else st
  | none => st

/-- States that no unexpired lease record for `key` is held: the item is
absent or its expiry has passed.  This is exactly the acquire condition of
the spec. -/
def no_unexpired (st : StoreMap) (key : String) (now : Int) : Bool :=
  match st key with
  | none => true
  | some r => decide (r.lease_expiry ≤ now)

/-!
## Multi-participant transition system (for mutual exclusion)

A system state holds the shared store, the list of live handles across all
participants (each reduced to its key and current version), and the global
fresh-version supply (modelled from the spec: every generated version token is
unique across all acquire/extend operations).  Each participant uses a
distinct Client, so the local registries play no role here; they are modelled
separately below for the single-client claims.
-/

structure SysState where
  store : StoreMap
  /-- the live handles: key and current cell version of each -/
  handles : List (String × Uuid)
  /-- fresh-version supply counter -/
  supply : Nat

/-- Events at the linearisation points of the store (the spec: "store-side
conditional writes linearise acquire/extend/delete"). -/
inductive SysEvent where
  /-- some participant's `try_acquire(key)` reaches the store at time `now` -/
  | acquire_ev (key : String) (now ttl : Int) : SysEvent
  /-- the extension task of the handle `(key, hv)` fires at time `now` -/
  | extend_ev (key : String) (hv : Uuid) (now ttl : Int) : SysEvent
  /-- the handle `(key, hv)` is released (explicitly or by drop) -/
  | release_ev (key : String) (hv : Uuid) : SysEvent

/-- Replace the handle `(key, hv)` by `(key, newv)` (the extension task storing
the new version into its cell). -/
def bump_handle (hs : List (String × Uuid)) (key : String) (hv newv : Uuid) :
    List (String × Uuid) :=
  hs.map fun p => if p = (key, hv) then (key, newv) else p

/-- One linearised step of the system. -/
def sys_step (s : SysState) : SysEvent → SysState
  | SysEvent.acquire_ev key now ttl =>
    match acquire_or_replace s.store key s.supply now ttl with
    | AcqOutcome.acquired st' => ⟨st', (key, s.supply) :: s.handles, s.supply + 1⟩
    | AcqOutcome.held => ⟨s.store, s.handles, s.supply + 1⟩
  | SysEvent.extend_ev key hv now ttl =>
    if (key, hv) ∈ s.handles then
      match extend_if_mine s.store key hv s.supply now ttl with
      | some st' => ⟨st', bump_handle s.handles key hv s.supply, s.supply + 1⟩
      | none => ⟨s.store, s.handles, s.supply + 1⟩
    else
      ⟨s.store, s.handles, s.supply + 1⟩
  | SysEvent.release_ev key hv =>
    ⟨delete_if_mine s.store key hv,
     s.handles.filter (fun p => !decide (p = (key, hv))),
     s.supply⟩

/-- Run a list of events from a state. -/
def sys_run (s : SysState) : List SysEvent → SysState
  | [] => s
  | e :: evs => sys_run (sys_step s e) evs

/-- The initial system state: empty store, no handles, supply at zero. -/
def sys_init : SysState := ⟨fun _ => none, [], 0⟩

/-- A handle is live at a state iff the store's current record for its key
carries exactly its version — the spec's `ACQUIRED` state; a handle whose
version was superseded or whose record is gone is `DEAD`/`GONE`. -/
def handle_live (st : StoreMap) (p : String × Uuid) : Bool :=
  match st p.1 with
  | some r => decide (r.lease_version = p.2)
  | none => false

/-- Number of live handles for `key` at state `s`. -/
def live_count (s : SysState) (key : String) : Nat :=
  (s.handles.filter fun p => decide (p.1 = key) && handle_live s.store p).length

/-!
## Single-Client `try_acquire` with the local key registry
-/

/-- Store calls a single Client makes; used to show when the store is (not)
contacted. -/
inductive StoreCall where
  | acquire_call (key : String) (v : Uuid) (now ttl : Int) : StoreCall
deriving DecidableEq, Repr

/-- A Client's view: the shared store, its process-local key registry
(`local_locks key = true` iff the local serialising primitive for `key` is
currently held), the fresh-version supply and the configured TTL. -/
structure ClientState where
  store : StoreMap
  local_locks : String → Bool
  supply : Nat
  lease_ttl : Int

/-- Set the local registry entry for `k`. -/
def lock_set (f : String → Bool) (k : String) (b : Bool) : String → Bool :=
  fun k' => if k' = k then b else f k'

/-- Modelled from the spec: `try_acquire(key)` (section 4.C) for one Client.
If the local serialising primitive for `key` is already held by another
holder of the same Client, return `None` without contacting the store.
Otherwise take the local token, generate a fresh version, issue
`acquire_or_replace`; on `Acquired` hand the token to the new handle (the
registry entry stays held) and return the handle's key/version; on `Held`
put the token back and return `None`.  The third component lists the store
calls made. -/
def try_acquire (c : ClientState) (key : String) (now : Int) :
    Option (String × Uuid) × ClientState × List StoreCall :=
  if c.local_locks key then
    (none, c, [])
  else
    let v := c.supply
    match acquire_or_replace c.store key v now c.lease_ttl with
    | AcqOutcome.acquired st' =>
      (some (key, v),
       { c with
           store := st'
           local_locks := lock_set c.local_locks key true
           supply := c.supply + 1 },
       [StoreCall.acquire_call key v now c.lease_ttl])
    | AcqOutcome.held =>
      (none, { c with supply := c.supply + 1 },
       [StoreCall.acquire_call key v now c.lease_ttl])

/-!
## Theorems
-/

theorem guard_seen_drop_chain (fuel : Nat) :
    ∀ (l : Lease) (res : StoreResult) (g : Nat),
      guard_seen_before_delete g (drop_chain fuel l res) = true := by
  induction fuel with
  | zero => intro l res g; rfl
  | succ n ih =>
    intro l res g
    by_cases h : l.is_dropped
    · simp only [drop_chain, drop_spawn, h, ite_true]
      rfl
    · simp only [drop_chain, drop_spawn, h, if_neg, Bool.false_eq_true, ite_false]
      simp only [release_body, List.cons_append, List.nil_append,
        guard_seen_before_delete, Nat.zero_lt_succ, decide_true_eq_true, Bool.true_and]
      exact ih _ _ _

/-- C3: in every release of a lease — the explicit `release()` and the
drop-triggered release alike — the local serialisation token is dropped
strictly before the store-side conditional delete is issued: at every
`delete_lease` in the trace, a `drop_local_guard` has already occurred. -/
theorem C3_guard_dropped_before_delete (fuel : Nat) (l : Lease) (res : StoreResult) :
    guard_seen_before_delete 0 (release_trace fuel l res) = true ∧
    guard_seen_before_delete 0 (drop_trace fuel l res) = true := by
  constructor
  · simp only [release_trace, release_body, List.cons_append, List.nil_append,
      guard_seen_before_delete, Nat.zero_lt_succ, decide_true_eq_true, Bool.true_and]
    exact guard_seen_drop_chain fuel _ res 1
  · exact guard_seen_drop_chain fuel l res 0

/-- C5: dropping a lease whose `is_dropped` flag is unset hands the handle's
owned state — client reference, shared key/version cell, local token — to a
detached task (the `drop_spawn`/`drop_inner` pair), whose execution is exactly
the release sequence `release()` would run on that moved state; the destructor
itself contributes only the `spawn_release` marker and performs no store
action of its own. -/
theorem C5_drop_schedules_detached_release (l : Lease) (res : StoreResult) (fuel : Nat)
    (h : l.is_dropped = false) :
    drop_spawn l = some (drop_inner l) ∧
    (drop_inner l).client = l.client ∧
    (drop_inner l).key_lease_v = l.key_lease_v ∧
    (drop_inner l).local_guard = l.local_guard ∧
    (drop_inner l).is_dropped = true ∧
    drop_trace (fuel + 1) l res =
      StoreAction.spawn_release :: release_trace fuel (drop_inner l) res := by
  refine ⟨by simp [drop_spawn, h], rfl, rfl, rfl, rfl, ?_⟩
  simp [drop_trace, drop_chain, drop_spawn, h, release_trace]

theorem C5_witness :
    sampleLease.is_dropped = false ∧
    (drop_spawn sampleLease = some (drop_inner sampleLease) ∧
      (drop_inner sampleLease).client = sampleLease.client ∧
      (drop_inner sampleLease).key_lease_v = sampleLease.key_lease_v ∧
      (drop_inner sampleLease).local_guard = sampleLease.local_guard ∧
      (drop_inner sampleLease).is_dropped = true ∧
      drop_trace 2 sampleLease StoreResult.ok =
        StoreAction.spawn_release ::
          release_trace 1 (drop_inner sampleLease) StoreResult.ok) :=
  ⟨rfl, C5_drop_schedules_detached_release sampleLease StoreResult.ok 1 rfl⟩

/-- C10: the drop/release chain stops after exactly one spawn.  The lease
value built inside `Drop::drop` carries `is_dropped = true`, so when the
detached release finishes and that value is itself dropped, no further task
is spawned: the trace of a drop is independent of any fuel ≥ 2, and it
contains exactly one `spawn_release` when the dropped handle's flag was unset
(zero when it was already set). -/
theorem C10_drop_spawns_exactly_once (l : Lease) (res : StoreResult) (fuel : Nat) :
    drop_trace (fuel + 2) l res = drop_trace 2 l res ∧
    spawn_count (drop_trace 2 l res) = (if l.is_dropped then 0 else 1) := by
  by_cases h : l.is_dropped
  · constructor
    · simp [drop_trace, drop_chain, drop_spawn, h]
    · simp [drop_trace, drop_chain, drop_spawn, h, spawn_count]
  · have hinner : (release_body (drop_inner l) res).2.is_dropped = true := rfl
    constructor
    · simp [drop_trace, drop_chain, drop_spawn, h, release_body, drop_inner]
    · simp [drop_trace, drop_chain, drop_spawn, h, release_body, drop_inner,
        spawn_count, List.filter]

/-- C2 fails on the code as stated: `release()` does NOT set the released
flag (`is_dropped` is still `false` when the body of `release` ends), so the
implicit drop of `self` at the end of `release()` is not a no-op — it spawns
a detached task, and the full trace of a single `release()` call issues the
store-side `delete_lease` twice, not once. -/
theorem C2_counterexample :
    (release_body sampleLease StoreResult.ok).2.is_dropped = false ∧
    drop_trace 2 (release_body sampleLease StoreResult.ok).2 StoreResult.ok ≠ [] ∧
    delete_count (release_trace 2 sampleLease StoreResult.ok) = 2 := by
  refine ⟨rfl, ?_, rfl⟩
  decide

/-- C2 (amended): `release()` does not set the released flag; the flag is set
only by the destructor.  The implicit drop at the end of `release()` therefore
spawns exactly one detached task that re-runs the release body — re-issuing
the conditional delete with the same key and version, a call whose failure is
swallowed — and that task's own drop is a no-op, so the chain stops: a
`release()` call performs the release body exactly twice (two `delete_lease`
calls with identical key and version), with exactly one spawn, independent of
fuel ≥ 2. -/
theorem C2_release_then_drop (l : Lease) (res : StoreResult) (fuel : Nat)
    (h : l.is_dropped = false) :
    (release_body l res).2.is_dropped = false ∧
    release_trace (fuel + 2) l res =
      [StoreAction.drop_local_guard,
       StoreAction.try_clean_local_lock l.key_lease_v.1,
       StoreAction.delete_lease l.key_lease_v.1 l.key_lease_v.2,
       StoreAction.spawn_release,
       StoreAction.drop_local_guard,
       StoreAction.try_clean_local_lock l.key_lease_v.1,
       StoreAction.delete_lease l.key_lease_v.1 l.key_lease_v.2] ∧
    delete_count (release_trace (fuel + 2) l res) = 2 ∧
    spawn_count (release_trace (fuel + 2) l res) = 1 := by
  have htr : release_trace (fuel + 2) l res =
      [StoreAction.drop_local_guard,
       StoreAction.try_clean_local_lock l.key_lease_v.1,
       StoreAction.delete_lease l.key_lease_v.1 l.key_lease_v.2,
       StoreAction.spawn_release,
       StoreAction.drop_local_guard,
       StoreAction.try_clean_local_lock l.key_lease_v.1,
       StoreAction.delete_lease l.key_lease_v.1 l.key_lease_v.2] := by
    simp [release_trace, release_body, drop_chain, drop_spawn, h, drop_inner]
  refine ⟨by simp [release_body, h], htr, ?_, ?_⟩
  · rw [htr]; simp [delete_count, List.filter]
  · rw [htr]; simp [spawn_count, List.filter]

theorem C2_release_then_drop_witness :
    sampleLease.is_dropped = false ∧
    ((release_body sampleLease StoreResult.ok).2.is_dropped = false ∧
      release_trace 2 sampleLease StoreResult.ok =
        [StoreAction.drop_local_guard,
         StoreAction.try_clean_local_lock "k",
         StoreAction.delete_lease "k" 7,
         StoreAction.spawn_release,
         StoreAction.drop_local_guard,
         StoreAction.try_clean_local_lock "k",
         StoreAction.delete_lease "k" 7] ∧
      delete_count (release_trace 2 sampleLease StoreResult.ok) = 2 ∧
      spawn_count (release_trace 2 sampleLease StoreResult.ok) = 1) :=
  ⟨rfl, C2_release_then_drop sampleLease StoreResult.ok 0 rfl⟩

theorem extension_loop_versions_last (key : String) :
    ∀ (evs : List ExtendEvent) (v : Uuid) (s : Nat),
      ∃ pre, (extension_loop key v s evs).versions =
        pre ++ [(extension_loop key v s evs).cell] := by
  intro evs
  induction evs with
  | nil => intro v s; exact ⟨[], rfl⟩
  | cons e rest ih =>
    intro v s
    by_cases hu : e.upgraded
    · cases ho : e.outcome with
      | extended =>
        obtain ⟨pre, hpre⟩ := ih s (s + 1)
        refine ⟨v :: pre, ?_⟩
        simp [extension_loop, hu, ho, hpre]
      | lost_or_transient =>
        exact ⟨[], by simp [extension_loop, hu, ho]⟩
    · exact ⟨[], by simp [extension_loop, hu]⟩

/-- C6: `release()` deletes with the latest version.  Construct the handle
whose shared cell holds whatever the extension loop last wrote (`run.cell`,
which is the last element of the observed version history): the release body
issues exactly one `delete_lease` and it carries that latest version; and the
body's outcome is independent of the store's answer to the delete — the
failure is swallowed, nothing is surfaced. -/
theorem C6_release_uses_latest_version_and_swallows_errors (client_ : Nat)
    (key : String) (v0 : Uuid) (supply : Nat) (evs : List ExtendEvent)
    (g : Option Unit) (res res' : StoreResult) :
    (release_body ⟨client_, (key, (extension_loop key v0 supply evs).cell), g, false⟩ res).1 =
      [StoreAction.drop_local_guard,
       StoreAction.try_clean_local_lock key,
       StoreAction.delete_lease key (extension_loop key v0 supply evs).cell] ∧
    (∃ pre, (extension_loop key v0 supply evs).versions =
      pre ++ [(extension_loop key v0 supply evs).cell]) ∧
    release_body ⟨client_, (key, (extension_loop key v0 supply evs).cell), g, false⟩ res =
      release_body ⟨client_, (key, (extension_loop key v0 supply evs).cell), g, false⟩ res' := by
  exact ⟨rfl, extension_loop_versions_last key evs v0 supply, rfl⟩

/-- C4: the step contract of one iteration of the background extension task.
After the sleep: if the weak upgrade fails the task terminates having made no
extend call and ignoring every later event; if it succeeds, the task issues
`extend_lease` with the current cell version; on success the fresh version is
stored into the cell and the loop continues with the remaining events; on any
extend error (`Lost` or transient alike) the task terminates after that one
call, with the cell unchanged and every later event ignored — no retry. -/
theorem C4_extension_step_contract (key : String) (v : Uuid) (supply : Nat)
    (e : ExtendEvent) (rest rest' : List ExtendEvent) :
    (e.upgraded = false →
      extension_loop key v supply (e :: rest) =
        ⟨[ExtAction.sleep], [v], v, supply, true⟩ ∧
      extension_loop key v supply (e :: rest) =
        extension_loop key v supply (e :: rest')) ∧
    (e.upgraded = true → e.outcome = ExtendOutcome.extended →
      extension_loop key v supply (e :: rest) =
        ⟨ExtAction.sleep :: ExtAction.extend_call key v ::
            (extension_loop key supply (supply + 1) rest).trace,
          v :: (extension_loop key supply (supply + 1) rest).versions,
          (extension_loop key supply (supply + 1) rest).cell,
          (extension_loop key supply (supply + 1) rest).supply,
          (extension_loop key supply (supply + 1) rest).terminated⟩) ∧
    (e.upgraded = true → e.outcome = ExtendOutcome.lost_or_transient →
      extension_loop key v supply (e :: rest) =
        ⟨[ExtAction.sleep, ExtAction.extend_call key v], [v], v, supply, true⟩ ∧
      extension_loop key v supply (e :: rest) =
        extension_loop key v supply (e :: rest')) := by
  refine ⟨fun hu => ?_, fun hu ho => ?_, fun hu ho => ?_⟩
  · constructor <;> simp [extension_loop, hu]
  · simp [extension_loop, hu, ho]
  · constructor <;> simp [extension_loop, hu, ho]

theorem C4_witness :
    extension_loop "k" 3 4 [⟨false, ExtendOutcome.extended⟩] =
      ⟨[ExtAction.sleep], [3], 3, 4, true⟩ ∧
    extension_loop "k" 3 4 [⟨true, ExtendOutcome.extended⟩] =
      ⟨[ExtAction.sleep, ExtAction.extend_call "k" 3], [3, 4], 4, 5, false⟩ ∧
    extension_loop "k" 3 4 [⟨true, ExtendOutcome.lost_or_transient⟩] =
      ⟨[ExtAction.sleep, ExtAction.extend_call "k" 3], [3], 3, 4, true⟩ :=
  ⟨((C4_extension_step_contract "k" 3 4 ⟨false, ExtendOutcome.extended⟩ [] []).1 rfl).1,
   (C4_extension_step_contract "k" 3 4 ⟨true, ExtendOutcome.extended⟩ [] []).2.1 rfl rfl,
   ((C4_extension_step_contract "k" 3 4 ⟨true, ExtendOutcome.lost_or_transient⟩ [] []).2.2
      rfl rfl).1⟩

theorem extension_loop_versions_head (key : String) (evs : List ExtendEvent)
    (v : Uuid) (s : Nat) :
    ∃ tail, (extension_loop key v s evs).versions = v :: tail := by
  cases evs with
  | nil => exact ⟨[], rfl⟩
  | cons e rest =>
    by_cases hu : e.upgraded
    · cases ho : e.outcome with
      | extended =>
        exact ⟨(extension_loop key s (s + 1) rest).versions,
          by simp [extension_loop, hu, ho]⟩
      | lost_or_transient => exact ⟨[], by simp [extension_loop, hu, ho]⟩
    · exact ⟨[], by simp [extension_loop, hu]⟩

/-- The number of loop iterations that complete a successful extend before the
task would halt: the cell is written exactly once per such iteration. -/
def successes_before_halt : List ExtendEvent → Nat
  | [] => 0
  | e :: rest =>
    if e.upgraded then
      match e.outcome with
      | ExtendOutcome.extended => successes_before_halt rest + 1
      | ExtendOutcome.lost_or_transient => 0
    else 0

/-- C7: per-handle version chain.  Provided the initial cell version was
generated before the supply's current point (`v < supply`, the spec-modelled
freshness of version tokens), the successive contents of the shared version
cell form a chain of pairwise-distinct successive tokens: the cell is written
exactly once per successful extend (`versions` has one entry beyond the
initial version per such extend), and two successive versions are never
equal. -/
theorem C7_version_chain_distinct (key : String) (evs : List ExtendEvent)
    (v : Uuid) (supply : Nat) (h : v < supply) :
    List.Chain' (fun a b => a ≠ b) (extension_loop key v supply evs).versions ∧
    (extension_loop key v supply evs).versions.length =
      successes_before_halt evs + 1 := by
  induction evs generalizing v supply with
  | nil =>
    exact ⟨List.chain'_singleton v, rfl⟩
  | cons e rest ih =>
    by_cases hu : e.upgraded
    · cases ho : e.outcome with
      | extended =>
        obtain ⟨hchain, hlen⟩ := ih supply (supply + 1) (Nat.lt_succ_self supply)
        obtain ⟨tail, htail⟩ := extension_loop_versions_head key rest supply (supply + 1)
        constructor
        · simp only [extension_loop, hu, ho, if_true]
          rw [List.chain'_cons']
          refine ⟨?_, hchain⟩
          intro y hy
          rw [htail] at hy
          simp only [List.head?_cons, Option.mem_def, Option.some.injEq] at hy
          subst hy
          exact Nat.ne_of_lt h
        · simp only [extension_loop, hu, ho, if_true, List.length_cons,
            successes_before_halt]
          omega
      | lost_or_transient =>
        constructor
        · simp only [extension_loop, hu, ho, if_true]
          exact List.chain'_singleton v
        · simp [extension_loop, successes_before_halt, hu, ho]
    · constructor
      · simp only [extension_loop, hu, Bool.false_eq_true, if_false]
        exact List.chain'_singleton v
      · simp [extension_loop, successes_before_halt, hu]

theorem C7_witness :
    (0 : Uuid) < 1 ∧
    (List.Chain' (fun a b => a ≠ b)
        (extension_loop "k" 0 1
          [⟨true, ExtendOutcome.extended⟩, ⟨true, ExtendOutcome.extended⟩,
           ⟨false, ExtendOutcome.extended⟩]).versions ∧
      (extension_loop "k" 0 1
          [⟨true, ExtendOutcome.extended⟩, ⟨true, ExtendOutcome.extended⟩,
           ⟨false, ExtendOutcome.extended⟩]).versions.length =
        successes_before_halt
          [⟨true, ExtendOutcome.extended⟩, ⟨true, ExtendOutcome.extended⟩,
           ⟨false, ExtendOutcome.extended⟩] + 1) :=
  ⟨Nat.zero_lt_one,
   C7_version_chain_distinct "k"
     [⟨true, ExtendOutcome.extended⟩, ⟨true, ExtendOutcome.extended⟩,
      ⟨false, ExtendOutcome.extended⟩] 0 1 Nat.zero_lt_one⟩

/-- The freshness invariant of the system: every version carried by a live
handle or stored in a record was drawn from the supply (hence is below the
counter), and no two handles carry the same version. -/
def SysInv (s : SysState) : Prop :=
  (∀ p ∈ s.handles, p.2 < s.supply) ∧
  (∀ k r, s.store k = some r → r.lease_version < s.supply) ∧
  s.handles.Pairwise (fun a b => a.2 ≠ b.2)

theorem acquire_or_replace_acquired {st : StoreMap} {key : String} {v : Uuid}
    {now ttl : Int} {st' : StoreMap}
    (h : acquire_or_replace st key v now ttl = AcqOutcome.acquired st') :
    st' = store_put st key ⟨now + ttl, v⟩ := by
  unfold acquire_or_replace at h
  cases hk : st key with
  | none => rw [hk] at h; cases h; rfl
  | some r =>
    rw [hk] at h
    simp only [] at h
    by_cases hexp : r.lease_expiry ≤ now
    · rw [if_pos hexp] at h; cases h; rfl
    · rw [if_neg hexp] at h; cases h

theorem extend_if_mine_some {st : StoreMap} {key : String} {e v : Uuid}
    {now ttl : Int} {st' : StoreMap}
    (h : extend_if_mine st key e v now ttl = some st') :
    st' = store_put st key ⟨now + ttl, v⟩ := by
  unfold extend_if_mine at h
  cases hk : st key with
  | none => rw [hk] at h; cases h
  | some r =>
    rw [hk] at h
    simp only [] at h
    by_cases hv : r.lease_version = e
    · rw [if_pos hv] at h; cases h; rfl
    · rw [if_neg hv] at h; cases h

theorem delete_if_mine_lookup (st : StoreMap) (key : String) (e : Uuid)
    (k' : String) (r : LeaseRecord) :
    delete_if_mine st key e k' = some r → st k' = some r := by
  intro h
  unfold delete_if_mine at h
  cases hk : st key with
  | none => rw [hk] at h; exact h
  | some r0 =>
    rw [hk] at h
    simp only [] at h
    by_cases hv : r0.lease_version = e
    · rw [if_pos hv] at h
      unfold store_del at h
      by_cases hk' : k' = key
      · rw [if_pos hk'] at h; cases h
      · rw [if_neg hk'] at h; exact h
    · rw [if_neg hv] at h; exact h

theorem store_put_lookup (st : StoreMap) (k : String) (r : LeaseRecord)
    (k' : String) :
    store_put st k r k' = if k' = k then some r else st k' := rfl

theorem filter_snd_eq_length_le_one (w : Uuid) :
    ∀ (l : List (String × Uuid)) (q : String × Uuid → Bool),
      l.Pairwise (fun a b => a.2 ≠ b.2) →
      (∀ p, q p = true → p.2 = w) →
      (l.filter q).length ≤ 1 := by
  intro l
  induction l with
  | nil => intro q _ _; simp
  | cons a l ih =>
    intro q hpw hq
    rw [List.pairwise_cons] at hpw
    by_cases hqa : q a
    · rw [List.filter_cons_of_pos hqa]
      have hnil : l.filter q = [] := by
        rw [List.filter_eq_nil_iff]
        intro b hb hqb
        exact hpw.1 b hb (by rw [hq a hqa, hq b hqb])
      rw [hnil]
      exact Nat.le_refl 1
    · rw [List.filter_cons_of_neg hqa]
      exact ih q hpw.2 hq

theorem live_count_le_one_of_inv (s : SysState) (k : String) (hinv : SysInv s) :
    live_count s k ≤ 1 := by
  unfold live_count
  cases hk : s.store k with
  | none =>
    refine filter_snd_eq_length_le_one 0 s.handles _ hinv.2.2 ?_
    intro p hp
    rw [Bool.and_eq_true, decide_eq_true_eq] at hp
    exfalso
    have := hp.2
    unfold handle_live at this
    rw [hp.1, hk] at this
    cases this
  | some r =>
    refine filter_snd_eq_length_le_one r.lease_version s.handles _ hinv.2.2 ?_
    intro p hp
    rw [Bool.and_eq_true, decide_eq_true_eq] at hp
    have := hp.2
    unfold handle_live at this
    rw [hp.1, hk, decide_eq_true_eq] at this
    exact this.symm

theorem sysInv_step (s : SysState) (e : SysEvent) (hinv : SysInv s) :
    SysInv (sys_step s e) := by
  obtain ⟨hbound, hstore, hpw⟩ := hinv
  cases e with
  | acquire_ev key now ttl =>
    cases hacq : acquire_or_replace s.store key s.supply now ttl with
    | acquired st' =>
      have hst' := acquire_or_replace_acquired hacq
      subst hst'
      refine ⟨?_, ?_, ?_⟩
      · intro p hp
        simp only [sys_step, hacq, List.mem_cons] at hp ⊢
        cases hp with
        | inl h => subst h; exact Nat.lt_succ_self _
        | inr h => exact Nat.lt_succ_of_lt (hbound p h)
      · intro k r hr
        simp only [sys_step, hacq] at hr ⊢
        rw [store_put_lookup] at hr
        by_cases hk : k = key
        · rw [if_pos hk] at hr
          cases hr
          exact Nat.lt_succ_self _
        · rw [if_neg hk] at hr
          exact Nat.lt_succ_of_lt (hstore k r hr)
      · simp only [sys_step, hacq]
        exact List.Pairwise.cons
          (fun p hp => Nat.ne_of_gt (hbound p hp)) hpw
    | held =>
      refine ⟨?_, ?_, ?_⟩
      · intro p hp
        simp only [sys_step, hacq] at hp ⊢
        exact Nat.lt_succ_of_lt (hbound p hp)
      · intro k r hr
        simp only [sys_step, hacq] at hr ⊢
        exact Nat.lt_succ_of_lt (hstore k r hr)
      · simp only [sys_step, hacq]
        exact hpw
  | extend_ev key hv now ttl =>
    by_cases hmem : (key, hv) ∈ s.handles
    · cases hext : extend_if_mine s.store key hv s.supply now ttl with
      | some st' =>
        have hst' := extend_if_mine_some hext
        subst hst'
        refine ⟨?_, ?_, ?_⟩
        · intro p hp
          simp only [sys_step, hmem, hext, if_pos, bump_handle, List.mem_map] at hp
          obtain ⟨a, ha, hfa⟩ := hp
          by_cases hak : a = (key, hv)
          · rw [if_pos hak] at hfa
            simp only [sys_step, hmem, hext]
            rw [← hfa]
            exact Nat.lt_succ_self _
          · rw [if_neg hak] at hfa
            simp only [sys_step, hmem, hext]
            rw [← hfa]
            exact Nat.lt_succ_of_lt (hbound a ha)
        · intro k r hr
          simp only [sys_step, hmem, hext, if_pos] at hr ⊢
          rw [store_put_lookup] at hr
          by_cases hk : k = key
          · rw [if_pos hk] at hr
            cases hr
            exact Nat.lt_succ_self _
          · rw [if_neg hk] at hr
            exact Nat.lt_succ_of_lt (hstore k r hr)
        · simp only [sys_step, hmem, hext, if_pos, bump_handle]
          rw [List.pairwise_map]
          refine List.Pairwise.imp_of_mem ?_ hpw
          intro a b ha hb hab
          by_cases hak : a = (key, hv) <;> by_cases hbk : b = (key, hv)
          · exact absurd (by rw [hak, hbk]) hab
          · rw [if_pos hak, if_neg hbk]
            exact Nat.ne_of_gt (hbound b hb)
          · rw [if_neg hak, if_pos hbk]
            exact Nat.ne_of_lt (hbound a ha)
          · rw [if_neg hak, if_neg hbk]
            exact hab
      | none =>
        refine ⟨?_, ?_, ?_⟩
        · intro p hp
          simp only [sys_step, hmem, hext, if_pos] at hp ⊢
          exact Nat.lt_succ_of_lt (hbound p hp)
        · intro k r hr
          simp only [sys_step, hmem, hext, if_pos] at hr ⊢
          exact Nat.lt_succ_of_lt (hstore k r hr)
        · simp only [sys_step, hmem, hext, if_pos]
          exact hpw
    · refine ⟨?_, ?_, ?_⟩
      · intro p hp
        simp only [sys_step, hmem, if_neg] at hp ⊢
        exact Nat.lt_succ_of_lt (hbound p hp)
      · intro k r hr
        simp only [sys_step, hmem, if_neg] at hr ⊢
        exact Nat.lt_succ_of_lt (hstore k r hr)
      · simp only [sys_step, hmem, if_neg]
        exact hpw
  | release_ev key hv =>
    refine ⟨?_, ?_, ?_⟩
    · intro p hp
      simp only [sys_step, List.mem_filter] at hp ⊢
      exact hbound p hp.1
    · intro k r hr
      simp only [sys_step] at hr ⊢
      exact hstore k r (delete_if_mine_lookup s.store key hv k r hr)
    · simp only [sys_step]
      exact List.Pairwise.filter _ hpw

theorem sysInv_run (evs : List SysEvent) :
    ∀ (s : SysState), SysInv s → SysInv (sys_run s evs) := by
  induction evs with
  | nil => intro s h; exact h
  | cons e evs ih =>
    intro s h
    exact ih (sys_step s e) (sysInv_step s e h)

theorem sysInv_init : SysInv sys_init := by
  refine ⟨?_, ?_, ?_⟩
  · intro p hp; cases hp
  · intro k r hr; cases hr
  · exact List.Pairwise.nil

/-- C1: mutual exclusion.  Along any linearised run of the system from the
initial (empty) state, for every key at every instant at most one live lease
handle exists across all participants — at most one handle's cell version
matches the store's current record for the key; and a participant's
acquisition succeeds exactly when no unexpired lease record for the key is
held: the conditional put goes through iff the item is absent or its expiry
has passed. -/
theorem C1_mutual_exclusion (evs : List SysEvent) (k : String) :
    live_count (sys_run sys_init evs) k ≤ 1 ∧
    (∀ (st : StoreMap) (key : String) (v : Uuid) (now ttl : Int),
      (∃ st', acquire_or_replace st key v now ttl = AcqOutcome.acquired st') ↔
        no_unexpired st key now = true) := by
  constructor
  · exact live_count_le_one_of_inv _ k (sysInv_run evs sys_init sysInv_init)
  · intro st key v now ttl
    constructor
    · rintro ⟨st', hst'⟩
      unfold acquire_or_replace at hst'
      unfold no_unexpired
      cases hk : st key with
      | none => rfl
      | some r =>
        rw [hk] at hst'
        simp only [] at hst'
        by_cases hexp : r.lease_expiry ≤ now
        · simp [hexp]
        · rw [if_neg hexp] at hst'
          cases hst'
    · intro hcond
      unfold no_unexpired at hcond
      unfold acquire_or_replace
      cases hk : st key with
      | none => exact ⟨_, rfl⟩
      | some r =>
        rw [hk] at hcond
        rw [decide_eq_true_eq] at hcond
        refine ⟨store_put st key ⟨now + ttl, v⟩, ?_⟩
        simp only []
        rw [if_pos hcond]

theorem try_acquire_locked {c : ClientState} {key : String} {now : Int}
    (hl : c.local_locks key = true) :
    try_acquire c key now = (none, c, []) := by
  unfold try_acquire
  rw [if_pos hl]

theorem try_acquire_acquired {c : ClientState} {key : String} {now : Int}
    {st' : StoreMap} (hl : c.local_locks key = false)
    (hacq : acquire_or_replace c.store key c.supply now c.lease_ttl =
      AcqOutcome.acquired st') :
    try_acquire c key now =
      (some (key, c.supply),
       { c with
           store := st'
           local_locks := lock_set c.local_locks key true
           supply := c.supply + 1 },
       [StoreCall.acquire_call key c.supply now c.lease_ttl]) := by
  unfold try_acquire
  rw [if_neg (by rw [hl]; exact Bool.false_ne_true)]
  simp only []
  rw [hacq]

theorem try_acquire_held {c : ClientState} {key : String} {now : Int}
    (hl : c.local_locks key = false)
    (hacq : acquire_or_replace c.store key c.supply now c.lease_ttl =
      AcqOutcome.held) :
    try_acquire c key now =
      (none, { c with supply := c.supply + 1 },
       [StoreCall.acquire_call key c.supply now c.lease_ttl]) := by
  unfold try_acquire
  rw [if_neg (by rw [hl]; exact Bool.false_ne_true)]
  simp only []
  rw [hacq]

/-- C8: with the local token free, `try_acquire` succeeds exactly when the
stored record for the key is absent or already expired (`expiry ≤ now`); in
particular, against a pre-inserted record whose expiry lies in the past and
whose version is `v0`, it returns a lease whose version is the freshly
generated token, which differs from `v0`. -/
theorem C8_try_acquire_replaces_expired (c : ClientState) (key : String)
    (now : Int) (hfree : c.local_locks key = false) :
    ((try_acquire c key now).1.isSome = true ↔
      no_unexpired c.store key now = true) ∧
    (∀ expiry v0, c.store key = some ⟨expiry, v0⟩ → expiry ≤ now →
      v0 ≠ c.supply →
      (try_acquire c key now).1 = some (key, c.supply) ∧ c.supply ≠ v0) := by
  constructor
  · constructor
    · intro hsome
      unfold try_acquire at hsome
      rw [if_neg (by rw [hfree]; exact Bool.false_ne_true)] at hsome
      unfold no_unexpired
      cases hk : c.store key with
      | none => rfl
      | some r =>
        by_cases hexp : r.lease_expiry ≤ now
        · simp [hexp]
        · exfalso
          unfold acquire_or_replace at hsome
          rw [hk] at hsome
          simp only [] at hsome
          rw [if_neg hexp] at hsome
          cases hsome
    · intro hcond
      unfold try_acquire
      rw [if_neg (by rw [hfree]; exact Bool.false_ne_true)]
      unfold no_unexpired at hcond
      unfold acquire_or_replace
      cases hk : c.store key with
      | none => rfl
      | some r =>
        rw [hk] at hcond
        rw [decide_eq_true_eq] at hcond
        simp only []
        rw [if_pos hcond]
        rfl
  · intro expiry v0 hk hexp hne
    constructor
    · unfold try_acquire
      rw [if_neg (by rw [hfree]; exact Bool.false_ne_true)]
      unfold acquire_or_replace
      rw [hk]
      simp only []
      rw [if_pos hexp]
    · exact fun h => hne h.symm

/-- A concrete client holding an expired record for `"k"` under version 7,
with a free local registry and supply at 0. -/
def sampleClient : ClientState :=
  { store := fun k => if k = "k" then some ⟨-1000, 7⟩ else none
    local_locks := fun _ => false
    supply := 0
    lease_ttl := 20 }

theorem C8_witness :
    sampleClient.local_locks "k" = false ∧
    (((try_acquire sampleClient "k" 0).1.isSome = true ↔
        no_unexpired sampleClient.store "k" 0 = true) ∧
      (∀ expiry v0, sampleClient.store "k" = some ⟨expiry, v0⟩ → expiry ≤ 0 →
        v0 ≠ sampleClient.supply →
        (try_acquire sampleClient "k" 0).1 = some ("k", sampleClient.supply) ∧
          sampleClient.supply ≠ v0)) :=
  ⟨rfl, C8_try_acquire_replaces_expired sampleClient "k" 0 rfl⟩

/-- C9: local serialisation within one Client.  Once a `try_acquire` on this
Client has succeeded for a key (the returned handle holding the local token),
any further `try_acquire` for the same key through the same Client returns
`None`, leaves the client state untouched, and makes no store call at all. -/
theorem C9_local_serialisation (c : ClientState) (key : String) (now now' : Int)
    (h : (try_acquire c key now).1.isSome = true) :
    (try_acquire c key now).2.1.local_locks key = true ∧
    try_acquire (try_acquire c key now).2.1 key now' =
      (none, (try_acquire c key now).2.1, []) := by
  by_cases hl : c.local_locks key
  · rw [try_acquire_locked hl] at h
    cases h
  · have hl' : c.local_locks key = false := by
      cases hcl : c.local_locks key
      · rfl
      · exact absurd hcl hl
    cases hacq : acquire_or_replace c.store key c.supply now c.lease_ttl with
    | acquired st' =>
      rw [try_acquire_acquired hl' hacq]
      have hlock :
          ({ c with
               store := st'
               local_locks := lock_set c.local_locks key true
               supply := c.supply + 1 } : ClientState).local_locks key = true := by
        show lock_set c.local_locks key true key = true
        unfold lock_set
        rw [if_pos rfl]
      exact ⟨hlock, try_acquire_locked hlock⟩
    | held =>
      rw [try_acquire_held hl' hacq] at h
      cases h

/-- A concrete client with an empty store and free registry. -/
def emptyClient : ClientState :=
  { store := fun _ => none
    local_locks := fun _ => false
    supply := 0
    lease_ttl := 20 }

theorem C9_witness :
    (try_acquire emptyClient "k" 0).1.isSome = true ∧
    ((try_acquire emptyClient "k" 0).2.1.local_locks "k" = true ∧
      try_acquire (try_acquire emptyClient "k" 0).2.1 "k" 5 =
        (none, (try_acquire emptyClient "k" 0).2.1, [])) :=
  ⟨rfl, C9_local_serialisation emptyClient "k" 0 5 rfl⟩
